import Mathlib

/-!
Verification of the file snapshot store (`file_snapshot.go`), the TCP stream
layer (`tcp_transport.go`) and the AppendEntries pipeline contract of the
network transport of the Matrix-N/raft repository, as a shallow embedding in
Lean 4.  Machine integers are modelled as `Nat`/`Int` (the Go code only
compares and counts, it never overflows), byte slices as `List Nat`, the
snapshot directory as an association list of named entries, and fallible
operations return `Except String`.
-/

/-! ### CRC64-ECMA (Go `hash/crc64` with `crc64.MakeTable(crc64.ECMA)`)

Go's `crc64` package implements the bit-reflected CRC; `crc64.ECMA` is the
reversed ECMA-182 polynomial `0xC96C5795D7870F42`.  `digest.Write` complements
the running CRC, folds each byte in LSB-first, and complements again, so a
sequence of `Write`s is equivalent to one pass over the concatenation; the
table in the Go code is merely a precomputation of eight shift/xor rounds per
byte, which we perform directly. -/

/-- Reversed ECMA-182 polynomial used by `crc64.MakeTable(crc64.ECMA)`. -/
def ecmaPoly : Nat := 0xC96C5795D7870F42

/-- One LSB-first CRC round: shift right, xor the polynomial if the low bit
was set. -/
def crcStep (c : Nat) : Nat :=
  if c % 2 = 1 then (c / 2) ^^^ ecmaPoly else c / 2

/-- Fold one byte into the running CRC (eight rounds), as the Go table lookup
`tab[byte(crc)^b] ^ (crc >> 8)` does. -/
def crcByte (c b : Nat) : Nat :=
  (List.range 8).foldl (fun acc _ => crcStep acc) (c ^^^ (b % 256))

/-- CRC64-ECMA of a byte sequence: complement, fold every byte, complement.
This is `crc64.New(crc64.MakeTable(crc64.ECMA))` fed the whole sequence and
read back with `Sum64`/`Sum(nil)` (the stored 8-byte big-endian form is
modelled by the number itself; the encoding is injective and always 8 bytes
long, so equality of the byte forms is equality of these numbers). -/
def crc64 (data : List Nat) : Nat :=
  (data.foldl crcByte (2 ^ 64 - 1)) ^^^ (2 ^ 64 - 1)

/-! ### Snapshot data model (`file_snapshot.go`) -/

/-- SnapshotMeta, the metadata of one snapshot (from the repository's snapshot
interface; the fields are the ones `file_snapshot.go` reads and writes).
`Peers` is the opaque byte form produced by `encodePeers`, and
`Configuration` is opaque to the store, so both are modelled as raw data. -/
structure SnapshotMeta where
  Version : Int
  ID : String
  Index : Nat
  Term : Nat
  Peers : List Nat
  Configuration : Nat
  ConfigurationIndex : Nat
  Size : Int
deriving DecidableEq

/-- fileSnapshotMeta: `SnapshotMeta` plus the stored CRC.  `CRC = none` models
the Go `nil` slice written by `Create` before the snapshot is finalized. -/
structure fileSnapshotMeta where
  meta : SnapshotMeta
  CRC : Option Nat
deriving DecidableEq

/-- Modelled from the spec: the supported snapshot version range
(`SnapshotVersionMin`/`SnapshotVersionMax` live in the repository's snapshot
interface file, which is not part of the sources here).  The spec states that
only version 1 snapshots are created and that unsupported meta versions are
skipped by `List`. -/
def SnapshotVersionMin : Int := 0

/-- Modelled from the spec: upper end of the supported version range; `Create`
accepts exactly version 1. -/
def SnapshotVersionMax : Int := 1

/-- One directory entry of the `snapshots/` directory: either a plain file
(ignored by `getSnapshots`) or a snapshot directory holding the parse result
of its `meta.json` (`none` = missing or undecodable) and the contents of its
`state.bin` (`none` = missing). -/
inductive FsEntry where
  | file (content : List Nat)
  | dir (metaFile : Option fileSnapshotMeta) (stateFile : Option (List Nat))
deriving DecidableEq

/-- The on-disk state of the `snapshots/` directory: named entries.  A real
directory has pairwise distinct names; theorems that need this state it as a
hypothesis (`nodupNames`). -/
structure DiskState where
  entries : List (String × FsEntry)
deriving DecidableEq

/-- FileSnapshotStore.  Only `retain` matters for the store's behaviour in
this model (`path` and the logger do not influence any claim; `noSync` only
toggles fsync calls, which have no effect on the modelled directory
contents). -/
structure FileSnapshotStore where
  retain : Int
deriving DecidableEq

/-- FileSnapshotSink: the in-progress snapshot.  The buffered writer, the
state file and the running CRC hash all carry the same byte sequence, so the
sink state is the sequence of bytes written so far (`written`), the metadata,
the temp directory name (`dir`) and the `closed` flag. -/
structure FileSnapshotSink where
  dir : String
  meta : fileSnapshotMeta
  written : List Nat
  closed : Bool
deriving DecidableEq

/-! ### Ordering (`snapMetaSlice.Less`) -/

/-- snapMetaSlice.Less, transliterated: compare by Term, then Index, then ID
(Go string comparison is bytewise lexicographic on UTF-8, which agrees with
Lean's codepoint-lexicographic `String` order). -/
def snapMetaLess (a b : fileSnapshotMeta) : Bool :=
  if a.meta.Term ≠ b.meta.Term then a.meta.Term < b.meta.Term
  else if a.meta.Index ≠ b.meta.Index then a.meta.Index < b.meta.Index
  else a.meta.ID < b.meta.ID

/-- Strict lexicographic (Term, Index, ID) order on snapshot metadata, the
propositional form of `snapMetaLess`. -/
def metaKeyLT (a b : SnapshotMeta) : Prop :=
  a.Term < b.Term ∨ (a.Term = b.Term ∧
    (a.Index < b.Index ∨ (a.Index = b.Index ∧ a.ID < b.ID)))

/-- Reflexive closure of `metaKeyLT`: `a` is at most as new as `b` in the
(Term, Index, ID) order. -/
def metaKeyLE (a b : SnapshotMeta) : Prop :=
  metaKeyLT a b ∨ (a.Term = b.Term ∧ a.Index = b.Index ∧ a.ID = b.ID)

instance : DecidableRel metaKeyLT := fun a b => by
  unfold metaKeyLT; infer_instance

instance : DecidableRel metaKeyLE := fun a b => by
  unfold metaKeyLE; infer_instance

theorem snapMetaLess_iff (a b : fileSnapshotMeta) :
    snapMetaLess a b = true ↔ metaKeyLT a.meta b.meta := by
  unfold snapMetaLess metaKeyLT
  by_cases h1 : a.meta.Term = b.meta.Term
  · by_cases h2 : a.meta.Index = b.meta.Index
    · simp [h1, h2]
    · simp [h1, h2]
  · simp [h1]

theorem metaKeyLT_asymm {a b : SnapshotMeta} :
    metaKeyLT a b → metaKeyLT b a → False := by
  unfold metaKeyLT
  rintro (h | ⟨he, (h | ⟨he2, h⟩)⟩) (g | ⟨ge, (g | ⟨ge2, g⟩)⟩) <;>
    try omega
  exact absurd g (not_lt_of_gt h)

theorem metaKeyLT_trichotomy (a b : SnapshotMeta) :
    metaKeyLT a b ∨ (a.Term = b.Term ∧ a.Index = b.Index ∧ a.ID = b.ID) ∨
      metaKeyLT b a := by
  unfold metaKeyLT
  rcases lt_trichotomy a.Term b.Term with h | h | h
  · exact Or.inl (Or.inl h)
  · rcases lt_trichotomy a.Index b.Index with h2 | h2 | h2
    · exact Or.inl (Or.inr ⟨h, Or.inl h2⟩)
    · rcases lt_trichotomy a.ID b.ID with h3 | h3 | h3
      · exact Or.inl (Or.inr ⟨h, Or.inr ⟨h2, h3⟩⟩)
      · exact Or.inr (Or.inl ⟨h, h2, h3⟩)
      · exact Or.inr (Or.inr (Or.inr ⟨h.symm, Or.inr ⟨h2.symm, h3⟩⟩))
    · exact Or.inr (Or.inr (Or.inr ⟨h.symm, Or.inl h2⟩))
  · exact Or.inr (Or.inr (Or.inl h))

theorem metaKeyLE_iff (a b : SnapshotMeta) :
    metaKeyLE a b ↔ ¬ metaKeyLT b a := by
  constructor
  · rintro (h | ⟨h1, h2, h3⟩) hba
    · exact metaKeyLT_asymm h hba
    · unfold metaKeyLT at hba
      rcases hba with g | ⟨_, g | ⟨_, g⟩⟩
      · omega
      · omega
      · rw [h3] at g; exact absurd g (lt_irrefl _)
  · intro h
    rcases metaKeyLT_trichotomy a b with g | g | g
    · exact Or.inl g
    · exact Or.inr g
    · exact absurd g h

theorem metaKeyLE_trans {a b c : SnapshotMeta} :
    metaKeyLE a b → metaKeyLE b c → metaKeyLE a c := by
  rintro (h | ⟨h1, h2, h3⟩) (g | ⟨g1, g2, g3⟩)
  · refine Or.inl ?_
    unfold metaKeyLT at *
    rcases h with h | ⟨he, h⟩ <;> rcases g with g | ⟨ge, g⟩
    · exact Or.inl (lt_trans h g)
    · exact Or.inl (ge ▸ h)
    · exact Or.inl (he ▸ g)
    · refine Or.inr ⟨he.trans ge, ?_⟩
      rcases h with h | ⟨he2, h⟩ <;> rcases g with g | ⟨ge2, g⟩
      · exact Or.inl (lt_trans h g)
      · exact Or.inl (ge2 ▸ h)
      · exact Or.inl (he2 ▸ g)
      · exact Or.inr ⟨he2.trans ge2, lt_trans h g⟩
  · exact Or.inl (by unfold metaKeyLT at *; rw [← g1, ← g2, ← g3]; exact h)
  · exact Or.inl (by unfold metaKeyLT at *; rw [h1, h2, h3]; exact g)
  · exact Or.inr ⟨h1.trans g1, h2.trans g2, h3.trans g3⟩

/-- The relation `sort.Sort(sort.Reverse(snapMetaSlice(...)))` sorts by:
`a` precedes `b` when `a` is not older than `b`. -/
def snapDescGE (a b : fileSnapshotMeta) : Prop := snapMetaLess a b = false

instance : DecidableRel snapDescGE := fun a b => by
  unfold snapDescGE; infer_instance

theorem snapDescGE_iff (a b : fileSnapshotMeta) :
    snapDescGE a b ↔ metaKeyLE b.meta a.meta := by
  unfold snapDescGE
  rw [metaKeyLE_iff, ← snapMetaLess_iff]
  constructor
  · intro h hc; rw [h] at hc; exact Bool.false_ne_true hc
  · intro h; exact Bool.eq_false_iff.mpr (fun hc => h hc)

instance : IsTotal fileSnapshotMeta snapDescGE := by
  constructor
  intro a b
  rw [snapDescGE_iff, snapDescGE_iff, metaKeyLE_iff, metaKeyLE_iff]
  by_cases h : metaKeyLT a.meta b.meta
  · exact Or.inr (fun hc => metaKeyLT_asymm h hc)
  · exact Or.inl h

instance : IsTrans fileSnapshotMeta snapDescGE := by
  constructor
  intro a b c hab hbc
  rw [snapDescGE_iff] at *
  exact metaKeyLE_trans hbc hab

/-! ### Directory scanning and listing -/

/-- strings.HasSuffix on the `.tmp` suffix (bytewise; `.tmp` is ASCII, so the
codepoint view agrees with Go's byte view). -/
def hasTmpSuffix (s : String) : Bool :=
  ['.', 't', 'm', 'p'].isSuffixOf s.data

/-- strings.TrimSuffix for the `.tmp` suffix. -/
def trimTmpSuffix (s : String) : String :=
  if hasTmpSuffix s then ⟨s.data.take (s.data.length - 4)⟩ else s

/-- Look a named entry up in the directory (a real directory resolves a name
to at most one entry; `find?` takes the first, and the claims' theorems carry
name uniqueness where it matters). -/
def lookupEntry (d : DiskState) (n : String) : Option FsEntry :=
  (d.entries.find? (fun e => e.1 = n)).map (·.2)

/-- One entry is well-named when, if it is a non-temporary snapshot directory
with a readable meta, the stored meta carries the directory's own name as its
ID. -/
def entryWellNamed (p : String × FsEntry) : Bool :=
  match p.2 with
  | FsEntry.dir (some m) _ => hasTmpSuffix p.1 || (m.meta.ID == p.1)
  | _ => true

/-- Every non-temporary snapshot directory's stored meta carries the
directory's own name as its ID.  This is how `FileSnapshotStore` itself lays
snapshots out (`Create` sets `ID` to the directory name), and `ReapSnapshots`
relies on it when it deletes by `meta.ID`. -/
def wellNamed (d : DiskState) : Prop :=
  ∀ p ∈ d.entries, entryWellNamed p = true

instance (d : DiskState) : Decidable (wellNamed d) := by
  unfold wellNamed; infer_instance

/-- Entry names of the directory are pairwise distinct (a filesystem
invariant). -/
def nodupNames (d : DiskState) : Prop :=
  (d.entries.map Prod.fst).Nodup

instance (d : DiskState) : Decidable (nodupNames d) := by
  unfold nodupNames; infer_instance

/-- The per-entry filter of `getSnapshots`: skip plain files, skip names with
the `.tmp` suffix, skip entries whose `meta.json` cannot be read, skip metas
whose version is outside the supported range. -/
def eligOf (p : String × FsEntry) : Option fileSnapshotMeta :=
  match p.2 with
  | FsEntry.file _ => none
  | FsEntry.dir metaFile _ =>
    if hasTmpSuffix p.1 then none
    else
      match metaFile with
      | none => none
      | some m =>
        if m.meta.Version < SnapshotVersionMin ∨ m.meta.Version > SnapshotVersionMax
        then none else some m

/-- The metas `getSnapshots` collects before sorting, in directory order. -/
def eligibleMetas (d : DiskState) : List fileSnapshotMeta :=
  d.entries.filterMap eligOf

/-- FileSnapshotStore.getSnapshots: collect the eligible metas and sort them
newest first (`sort.Sort(sort.Reverse(snapMetaSlice(...)))`).  Go's sort is
unstable; it guarantees exactly that the result is a permutation of the input
ordered by `snapDescGE`, which `insertionSort` also guarantees, and every
claim below is invariant under reordering of fully tied elements. -/
def getSnapshots (d : DiskState) : List fileSnapshotMeta :=
  List.insertionSort snapDescGE (eligibleMetas d)

/-- The accumulation loop of `FileSnapshotStore.List`: append metas, stopping
as soon as the accumulated length reaches `retain` (`sofar` is the length
accumulated so far). -/
def takeRetain (retain sofar : Int) : List fileSnapshotMeta → List SnapshotMeta
  | [] => []
  | m :: rest =>
    if sofar + 1 = retain then [m.meta]
    else m.meta :: takeRetain retain (sofar + 1) rest

/-- FileSnapshotStore.List: metadata of the newest `retain` snapshots. -/
def storeList (f : FileSnapshotStore) (d : DiskState) : List SnapshotMeta :=
  takeRetain f.retain 0 (getSnapshots d)

/-- FileSnapshotStore.readMeta: resolve the named entry and return its parsed
`meta.json` (none models every Go error path: missing entry, entry not a
directory, missing or undecodable meta file). -/
def readMeta (d : DiskState) (name : String) : Option fileSnapshotMeta :=
  match lookupEntry d name with
  | some (FsEntry.dir (some m) _) => some m
  | _ => none

/-- Contents of `<id>/state.bin`, none if the file (or the directory) is
missing. -/
def stateBytes (d : DiskState) (name : String) : Option (List Nat) :=
  match lookupEntry d name with
  | some (FsEntry.dir _ (some st)) => some st
  | _ => none

/-- bytes.Equal(meta.CRC, computed): the stored CRC (nil = `none` never
matches) against the freshly computed one. -/
def crcEqual (stored : Option Nat) (computed : Nat) : Bool :=
  stored == some computed

deriving instance DecidableEq for Except

/-- Result of `FileSnapshotStore.Open`: the returned triple is the meta, the
bytes the returned reader will yield, and the reader's file offset;
`stateFileOpened`/`stateFileClosed` record whether `state.bin` was opened and
whether its handle was closed again before returning. -/
structure OpenOutcome where
  result : Except String (fileSnapshotMeta × List Nat × Nat)
  stateFileOpened : Bool
  stateFileClosed : Bool
deriving DecidableEq

/-- FileSnapshotStore.Open: read the meta, open and hash `state.bin`, compare
against the stored CRC (failing with the literal error "CRC mismatch" and
closing the handle on inequality), seek back to offset 0 and return a
buffered reader over the open handle. -/
def storeOpen (d : DiskState) (id : String) : OpenOutcome :=
  match readMeta d id with
  | none => ⟨Except.error "failed to get meta data", false, false⟩
  | some meta =>
    match stateBytes d id with
    | none => ⟨Except.error "failed to open state file", false, false⟩
    | some st =>
      if crcEqual meta.CRC (crc64 st)
      then ⟨Except.ok (meta, st, 0), true, false⟩
      else ⟨Except.error "CRC mismatch", true, true⟩

/-- The snapshots `ReapSnapshots` deletes: everything beyond the first
`retain` of the sorted listing, named by their stored meta ID (which is the
path Go removes). -/
def reapVictims (f : FileSnapshotStore) (d : DiskState) : List String :=
  ((getSnapshots d).drop f.retain.toNat).map (fun m => m.meta.ID)

/-- FileSnapshotStore.ReapSnapshots: delete (by stored meta ID) every
snapshot beyond the first `retain` of the sorted listing.  Go iterates
`for i := retain; i < len(snapshots); i++`; the store constructor guarantees
`retain ≥ 1`, for which `Int.toNat` reproduces the loop exactly. -/
def reapSnapshots (f : FileSnapshotStore) (d : DiskState) : DiskState :=
  ⟨d.entries.filter (fun e => !(reapVictims f d).contains e.1)⟩

/-! ### Store construction and the sink -/

/-- NewFileSnapshotStoreWithLogger: reject `retain < 1` with the literal
error; otherwise build the store.  (Creating the snapshot directory and the
permissions probe can also fail in Go, but both happen after the retain
check, and neither affects the modelled state; the model lets them
succeed.) -/
def NewFileSnapshotStoreWithLogger (retain : Int) : Except String FileSnapshotStore :=
  if retain < 1 then Except.error "must retain at least one snapshot"
  else Except.ok ⟨retain⟩

/-- Install an entry under a name: `os.MkdirAll` succeeds on an existing
directory and the subsequent `os.Create` calls truncate, so an existing entry
of that name is replaced, otherwise the entry is appended. -/
def upsertEntry (d : DiskState) (n : String) (e : FsEntry) : DiskState :=
  if d.entries.any (fun p => p.1 = n)
  then ⟨d.entries.map (fun p => if p.1 = n then (n, e) else p)⟩
  else ⟨d.entries ++ [(n, e)]⟩

/-- FileSnapshotStore.Create: only version 1 is accepted; make
`<name>.tmp`, write `meta.json` (ID = name, CRC still nil), create an empty
`state.bin`, and hand back the sink.  `name` is `snapshotName(term, index)`
(Go derives it from the wall clock, so it is a parameter here), and `peers`
is the opaque result of `encodePeers`. -/
def storeCreate (d : DiskState) (version : Int) (index term : Nat)
    (configuration : Nat) (configurationIndex : Nat) (peers : List Nat)
    (name : String) : Except String (FileSnapshotSink × DiskState) :=
  if version ≠ 1 then Except.error "unsupported snapshot version"
  else
    let path := name ++ ".tmp"
    let meta0 : fileSnapshotMeta :=
      ⟨⟨version, name, index, term, peers, configuration, configurationIndex, 0⟩, none⟩
    Except.ok (⟨path, meta0, [], false⟩,
      upsertEntry d path (FsEntry.dir (some meta0) (some [])))

/-- FileSnapshotSink.Write: append to the buffered multi-writer (file and
hash see the same byte sequence). -/
def sinkWrite (s : FileSnapshotSink) (b : List Nat) : FileSnapshotSink :=
  { s with written := s.written ++ b }

/-- A sequence of `Sink.Write` calls. -/
def sinkWriteAll (s : FileSnapshotSink) (bs : List (List Nat)) : FileSnapshotSink :=
  bs.foldl sinkWrite s

/-- FileSnapshotSink.finalize on its success path: flush, fsync, stat, close,
then record `Size` and the CRC of everything written into the sink's meta. -/
def finalizeMeta (s : FileSnapshotSink) : fileSnapshotMeta :=
  { s.meta with
    meta := { s.meta.meta with Size := (s.written.length : Int) }
    CRC := some (crc64 s.written) }

/-- The effect of the success path of Close on the directory: the updated
`meta.json` (with Size and CRC) and the flushed `state.bin` land in the
sink's temp directory, which is renamed to its final name
(`strings.TrimSuffix(dir, ".tmp")`).  (In Go the meta write and the rename
can each fail and return their error leaving the temp directory in place;
the claims under scrutiny do not involve those failures, and the model lets
them succeed.) -/
def installSnapshot (s : FileSnapshotSink) (d : DiskState) : DiskState :=
  ⟨d.entries.map (fun e =>
    if e.1 = s.dir
    then (trimTmpSuffix s.dir, FsEntry.dir (some s.meta) (some s.written))
    else e)⟩

/-- FileSnapshotSink.Close.  `failFinalize` injects a failure into one of the
finalize steps (flush, state-file fsync, stat or close); on that failure Close
deletes the temp directory and returns the error, mutating no meta fields (the
flush-failure point; no claim inspects the sink's meta after a failure).  On
success: record Size and CRC, install the snapshot under its final name,
fsync the parent directory (no directory-state effect) and reap old
snapshots.  Returns (error?, sink, directory). -/
def sinkClose (f : FileSnapshotStore) (s : FileSnapshotSink) (d : DiskState)
    (failFinalize : Bool) : Except String Unit × FileSnapshotSink × DiskState :=
  if s.closed then (Except.ok (), s, d)
  else
    if failFinalize then
      (Except.error "failed to finalize snapshot", { s with closed := true },
        ⟨d.entries.filter (fun e => e.1 ≠ s.dir)⟩)
    else
      (Except.ok (), { s with closed := true, meta := finalizeMeta s },
        reapSnapshots f (installSnapshot { s with closed := true, meta := finalizeMeta s } d))

/-- FileSnapshotSink.Cancel: finalize (same failure injection; on failure the
temp directory is left in place and the error returned), then remove the temp
directory. -/
def sinkCancel (s : FileSnapshotSink) (d : DiskState)
    (failFinalize : Bool) : Except String Unit × FileSnapshotSink × DiskState :=
  if s.closed then (Except.ok (), s, d)
  else
    if failFinalize then
      (Except.error "failed to finalize snapshot", { s with closed := true }, d)
    else
      (Except.ok (), { s with closed := true, meta := finalizeMeta s },
        ⟨d.entries.filter (fun e => e.1 ≠ s.dir)⟩)

/-- Dispatcher over the two ways a sink ends, for stating the idempotence
claim (`true` = Close with the given finalize outcome, `false` = Cancel). -/
def sinkOp (isClose : Bool) (f : FileSnapshotStore) (failFinalize : Bool)
    (s : FileSnapshotSink) (d : DiskState) :
    Except String Unit × FileSnapshotSink × DiskState :=
  if isClose then sinkClose f s d failFinalize else sinkCancel s d failFinalize

/-! ### TCP stream layer (`tcp_transport.go`) -/

/-- A `net.Addr` as `newTCPTransport` sees it: either a `*net.TCPAddr`
(whose IP may be Go `nil`, modelled by `none`) or some other address type
(whose textual form is irrelevant to the code under scrutiny). -/
inductive GoNetAddr where
  | tcp (ip : Option (List Nat)) (port : Nat)
  | other (repr : String)
deriving DecidableEq

/-- net.IP.IsUnspecified: the address equals `0.0.0.0` or `::` (4-byte zero,
16-byte zero, or the IPv4-in-IPv6 form of the zero address, which
`IP.Equal` identifies with `0.0.0.0`). -/
def isUnspecified (ip : List Nat) : Bool :=
  ip == List.replicate 4 0 || ip == List.replicate 16 0 ||
    ip == List.replicate 10 0 ++ [255, 255] ++ List.replicate 4 0

/-- TCPStreamLayer: the configured advertise address and the listener's bound
address. -/
structure TCPStreamLayer where
  advertise : Option GoNetAddr
  listenerAddr : GoNetAddr
deriving DecidableEq

/-- TCPStreamLayer.Addr: the advertise address when one is configured,
otherwise the listener's bound address. -/
def TCPStreamLayer.AddrOf (t : TCPStreamLayer) : GoNetAddr :=
  match t.advertise with
  | some a => a
  | none => t.listenerAddr

/-- newTCPTransport, from the point where `net.Listen` has bound a listener
at `listenerAddr` (a bind failure aborts construction before any of the
checked logic runs).  Returns the stream layer the transport is built on (the
`NetworkTransport` wrapper does not alter the address logic) together with a
flag recording whether the listener was closed.  The error strings are the
literals of `errNotTCP` and `errNotAdvertisable`. -/
def newTCPTransport (listenerAddr : GoNetAddr) (advertise : Option GoNetAddr) :
    Except String TCPStreamLayer × Bool :=
  match TCPStreamLayer.AddrOf ⟨advertise, listenerAddr⟩ with
  | GoNetAddr.other _ => (Except.error "local address is not a TCP address", true)
  | GoNetAddr.tcp ip _ =>
    match ip with
    | none => (Except.error "local bind address is not advertisable", true)
    | some bytes =>
      if isUnspecified bytes
      then (Except.error "local bind address is not advertisable", true)
      else (Except.ok ⟨advertise, listenerAddr⟩, false)

/-! ### AppendEntries pipeline

Modelled from the spec: the network transport implementation is not among the
sources (only its test file is), so the pipeline is modelled from spec
section 4.6 and checked against the test file's required behaviour
(`TestNetworkTransport_AppendEntriesPipeline`,
`TestNetworkTransport_AppendEntriesPipeline_MaxRPCsInFlight`).  The sender
writes a request to the socket and then pushes a future onto a bounded
in-flight channel; the receiver pops the next future, reads one framed
response and emits the completed future on the consumer channel. -/

/-- One event on a pipeline: the caller enqueues a request (socket write
followed by the channel push), or the receiver matches the next framed
response to the oldest in-flight future and emits it on the consumer
channel.  Requests and responses are opaque payloads. -/
inductive PipeEvent where
  | send (request : Nat)
  | recv (response : Nat)
deriving DecidableEq

/-- In-flight futures (oldest first) and the futures already emitted on the
consumer channel, each carrying the request it was created for and the
response it completed with. -/
structure PipeState where
  pending : List Nat
  emitted : List (Nat × Nat)
deriving DecidableEq

/-- One pipeline step.  A receive only ever happens with a nonempty in-flight
queue (the receiver blocks on the channel otherwise); traces are constrained
to that by `pipeWF`. -/
def pipeStep (st : PipeState) : PipeEvent → PipeState
  | PipeEvent.send r => { st with pending := st.pending ++ [r] }
  | PipeEvent.recv resp =>
    match st.pending with
    | [] => st
    | future :: rest => ⟨rest, st.emitted ++ [(future, resp)]⟩

/-- Run a pipeline trace from the empty pipeline. -/
def pipeRun (trace : List PipeEvent) : PipeState :=
  trace.foldl pipeStep ⟨[], []⟩

/-- The requests sent on a trace, oldest first. -/
def pipeSends (trace : List PipeEvent) : List Nat :=
  trace.filterMap (fun e => match e with
    | PipeEvent.send r => some r
    | PipeEvent.recv _ => none)

/-- The responses received on a trace, oldest first. -/
def pipeRecvs (trace : List PipeEvent) : List Nat :=
  trace.filterMap (fun e => match e with
    | PipeEvent.send _ => none
    | PipeEvent.recv r => some r)

/-- Trace well-formedness: the receiver never fires with an empty in-flight
queue (`pend` counts the futures currently in flight). -/
def pipeWFFrom (pend : Nat) : List PipeEvent → Bool
  | [] => true
  | PipeEvent.send _ :: rest => pipeWFFrom (pend + 1) rest
  | PipeEvent.recv _ :: rest => decide (pend ≠ 0) && pipeWFFrom (pend - 1) rest

/-- Well-formedness from the empty pipeline. -/
def pipeWF (trace : List PipeEvent) : Bool := pipeWFFrom 0 trace

/-- Modelled from the spec: `MaxRPCsInFlight = 0` defaults to 2, so the
effective in-flight limit is `max(MaxRPCsInFlight, 2)` for every supported
configuration. -/
def pipelineEffectiveLimit (maxRPCsInFlight : Nat) : Nat :=
  max maxRPCsInFlight 2

/-- The in-flight channel capacity the spec text states:
"an in-flight channel of capacity max(MaxRPCsInFlight, 2)". -/
def pipelineChanCapacitySpec (maxRPCsInFlight : Nat) : Nat :=
  max maxRPCsInFlight 2

/-- Modelled from the spec and pinned by the source test: the in-flight
channel's buffer.  The test demands that with the effective limit L the
(L-1)-th unanswered send completes and the L-th blocks; under the spec's
write-then-push discipline that requires a buffer of L - 1, not the L the
spec text states (see the C6 counterexample below). -/
def pipelineChanCapacity (maxRPCsInFlight : Nat) : Nat :=
  pipelineEffectiveLimit maxRPCsInFlight - 1

/-- Whether the k-th consecutive unanswered send blocks: it writes its
request to the socket and then pushes the k-th future onto the channel,
which already buffers the k - 1 previous ones; the push (and with it the
send) blocks exactly when the channel is full. -/
def sendBlocks (capacity k : Nat) : Bool :=
  decide (capacity ≤ k - 1)

/-- Modelled from the spec: `append_entries_pipeline` refuses
`MaxRPCsInFlight = 1` with the sentinel `ErrPipelineReplicationNotSupported`
and otherwise returns a pipeline whose in-flight channel has the
test-mandated capacity. -/
def appendEntriesPipeline (maxRPCsInFlight : Nat) : Except String Nat :=
  if maxRPCsInFlight = 1
  then Except.error "pipeline replication not supported"
  else Except.ok (pipelineChanCapacity maxRPCsInFlight)

/-! ### Helper lemmas -/

theorem map_eq_self_of {α : Type} (l : List α) (g : α → α)
    (h : ∀ x ∈ l, g x = x) : l.map g = l := by
  induction l with
  | nil => rfl
  | cons x rest ih =>
    simp only [List.map_cons, h x (List.mem_cons_self x rest)]
    rw [ih (fun y hy => h y (List.mem_cons_of_mem x hy))]

theorem find?_append_of_none {α : Type} (p : α → Bool) (l1 l2 : List α)
    (h : ∀ x ∈ l1, p x = false) :
    List.find? p (l1 ++ l2) = List.find? p l2 := by
  induction l1 with
  | nil => rfl
  | cons x rest ih =>
    rw [List.cons_append, List.find?_cons, h x (List.mem_cons_self x rest)]
    exact ih (fun y hy => h y (List.mem_cons_of_mem x hy))

theorem find?_name_filter_ne (l : List (String × FsEntry)) (bad n : String)
    (hn : n ≠ bad) :
    List.find? (fun e => e.1 = n) (l.filter (fun e => e.1 ≠ bad)) =
      List.find? (fun e => e.1 = n) l := by
  induction l with
  | nil => rfl
  | cons p rest ih =>
    rw [List.filter_cons]
    by_cases hp : p.1 = bad
    · have h1 : decide (p.1 ≠ bad) = false := by simp [hp]
      have h2 : decide (p.1 = n) = false := by
        simp only [decide_eq_false_iff_not]
        intro hc
        exact hn (hc ▸ hp)
      rw [h1]
      simp only [Bool.false_eq_true, if_false]
      rw [ih, List.find?_cons, h2]
    · have h1 : decide (p.1 ≠ bad) = true := by simp [hp]
      rw [h1]
      simp only [if_true]
      rw [List.find?_cons, List.find?_cons]
      by_cases hpn : p.1 = n
      · simp [hpn]
      · have h2 : decide (p.1 = n) = false := by simp [hpn]
        rw [h2, ih]

theorem lookupEntry_none_iff (d : DiskState) (n : String) :
    lookupEntry d n = none ↔ ∀ p ∈ d.entries, p.1 ≠ n := by
  unfold lookupEntry
  constructor
  · intro h p hp
    cases hf : List.find? (fun e => e.1 = n) d.entries with
    | none =>
      have := List.find?_eq_none.mp hf p hp
      simpa using this
    | some q => rw [hf] at h; exact absurd h (by simp)
  · intro h
    have : List.find? (fun e => e.1 = n) d.entries = none := by
      rw [List.find?_eq_none]
      intro p hp
      simpa using h p hp
    rw [this]; rfl

/-! ### C10: store construction requires retain ≥ 1 -/

/-- C10: for every retain value less than 1, `FileSnapshotStore` construction
fails with the error "must retain at least one snapshot" and returns no
store; every store the constructor does return has retain ≥ 1, so a store
with retain 0 can never exist. -/
theorem newFileSnapshotStore_retain_check :
    (∀ r : Int, r < 1 →
      NewFileSnapshotStoreWithLogger r =
        Except.error "must retain at least one snapshot") ∧
    (∀ (r : Int) (st : FileSnapshotStore),
      NewFileSnapshotStoreWithLogger r = Except.ok st → 1 ≤ st.retain) := by
  constructor
  · intro r h
    unfold NewFileSnapshotStoreWithLogger
    rw [if_pos h]
  · intro r st h
    unfold NewFileSnapshotStoreWithLogger at h
    split at h
    · exact absurd h (by simp)
    · next hge =>
      injection h with h2
      rw [← h2]
      show (1 : Int) ≤ r
      omega

/-- C10 witness: retain 0 is rejected with the literal error. -/
theorem newFileSnapshotStore_retain_check_witness :
    NewFileSnapshotStoreWithLogger 0 =
      Except.error "must retain at least one snapshot" :=
  newFileSnapshotStore_retain_check.1 0 (by decide)

/-! ### C7: TCP transport construction and the advertise check -/

/-- C7: TCP transport construction succeeds exactly when the effective local
address (the configured advertise address, else the listener's bound address)
is a TCP address with a non-nil, non-unspecified IP; on success
`local_address()` is that effective address; and with an unspecified bound
address and no advertise address configured, construction fails with the
"not advertisable" error and the listener is closed. -/
theorem tcpTransport_advertisable (la : GoNetAddr) (adv : Option GoNetAddr) :
    ((∃ s, (newTCPTransport la adv).1 = Except.ok s) ↔
      (∃ ip p, TCPStreamLayer.AddrOf ⟨adv, la⟩ = GoNetAddr.tcp (some ip) p ∧
        isUnspecified ip = false)) ∧
    (∀ s, (newTCPTransport la adv).1 = Except.ok s →
      s.AddrOf = TCPStreamLayer.AddrOf ⟨adv, la⟩ ∧
      (∀ a, adv = some a → s.AddrOf = a) ∧
      (adv = none → s.AddrOf = la)) ∧
    (∀ ip p, la = GoNetAddr.tcp ip p → adv = none →
      (ip = none ∨ ∃ bytes, ip = some bytes ∧ isUnspecified bytes = true) →
      newTCPTransport la adv =
        (Except.error "local bind address is not advertisable", true)) := by
  refine ⟨?_, ?_, ?_⟩
  · unfold newTCPTransport
    cases he : TCPStreamLayer.AddrOf ⟨adv, la⟩ with
    | other r =>
      simp only [he]
      constructor
      · rintro ⟨s, hs⟩; exact absurd hs (by simp)
      · rintro ⟨ip, p, hip, _⟩; exact absurd hip (by simp)
    | tcp ip port =>
      cases ip with
      | none =>
        simp only [he]
        constructor
        · rintro ⟨s, hs⟩; exact absurd hs (by simp)
        · rintro ⟨ip2, p2, hip, _⟩
          injection hip with h1 h2
          exact absurd h1 (by simp)
      | some bytes =>
        simp only [he]
        by_cases hu : isUnspecified bytes
        · rw [if_pos hu]
          constructor
          · rintro ⟨s, hs⟩; exact absurd hs (by simp)
          · rintro ⟨ip2, p2, hip, hip2⟩
            injection hip with h1 h2
            injection h1 with h1
            rw [← h1] at hip2
            rw [hu] at hip2
            exact absurd hip2 (by simp)
        · rw [if_neg hu]
          constructor
          · intro _
            exact ⟨bytes, port, rfl, Bool.eq_false_iff.mpr hu⟩
          · intro _; exact ⟨⟨adv, la⟩, rfl⟩
  · intro s hs
    have hsa : s = ⟨adv, la⟩ := by
      unfold newTCPTransport at hs
      cases he : TCPStreamLayer.AddrOf ⟨adv, la⟩ with
      | other r => rw [he] at hs; simp at hs
      | tcp ip port =>
        cases ip with
        | none => rw [he] at hs; simp at hs
        | some bytes =>
          rw [he] at hs
          by_cases hu : isUnspecified bytes
          · simp [hu] at hs
          · simp [hu] at hs
            exact hs.symm
    subst hsa
    refine ⟨rfl, ?_, ?_⟩
    · intro a ha
      unfold TCPStreamLayer.AddrOf
      rw [ha]
    · intro ha
      unfold TCPStreamLayer.AddrOf
      rw [ha]
  · intro ip p hla hadv hbad
    subst hla
    have he : TCPStreamLayer.AddrOf ⟨adv, GoNetAddr.tcp ip p⟩ = GoNetAddr.tcp ip p := by
      unfold TCPStreamLayer.AddrOf
      rw [hadv]
    unfold newTCPTransport
    rw [he]
    rcases hbad with h | ⟨bytes, hb, hu⟩
    · rw [h]
    · rw [hb]
      simp only [hu, if_true]

/-- C7 witness: binding 0.0.0.0 with no advertise address fails with the
"not advertisable" error and closes the listener; a routable bound address
succeeds and is returned by `local_address()`. -/
theorem tcpTransport_advertisable_witness :
    newTCPTransport (GoNetAddr.tcp (some [0, 0, 0, 0]) 7000) none =
      (Except.error "local bind address is not advertisable", true) ∧
    (newTCPTransport (GoNetAddr.tcp (some [127, 0, 0, 1]) 7000) none).1 =
      Except.ok ⟨none, GoNetAddr.tcp (some [127, 0, 0, 1]) 7000⟩ :=
  ⟨(tcpTransport_advertisable (GoNetAddr.tcp (some [0, 0, 0, 0]) 7000) none).2.2
      (some [0, 0, 0, 0]) 7000 rfl rfl
      (Or.inr ⟨[0, 0, 0, 0], rfl, by decide⟩),
    by decide⟩

/-! ### C9: Close and Cancel are idempotent -/

theorem sinkOp_sets_closed (op : Bool) (f : FileSnapshotStore) (ff : Bool)
    (s : FileSnapshotSink) (d : DiskState) :
    (sinkOp op f ff s d).2.1.closed = true := by
  cases op <;> unfold sinkOp sinkClose sinkCancel <;>
    by_cases h : s.closed <;> cases ff <;> simp [h]

theorem sinkOp_on_closed (op : Bool) (f : FileSnapshotStore) (ff : Bool)
    (s : FileSnapshotSink) (d : DiskState) (h : s.closed = true) :
    sinkOp op f ff s d = (Except.ok (), s, d) := by
  cases op <;> unfold sinkOp sinkClose sinkCancel <;> simp [h]

/-- C9: Close and Cancel are idempotent and mutually idempotent.  Whatever
ends the sink first (Close or Cancel, with the finalize step succeeding or
failing), the sink is marked closed, and every subsequent Close or Cancel
returns nil and leaves both the sink and the disk exactly as they were. -/
theorem sink_close_cancel_idempotent (op1 op2 : Bool) (f1 f2 : FileSnapshotStore)
    (ff1 ff2 : Bool) (s : FileSnapshotSink) (d : DiskState) :
    (sinkOp op1 f1 ff1 s d).2.1.closed = true ∧
    sinkOp op2 f2 ff2 (sinkOp op1 f1 ff1 s d).2.1 (sinkOp op1 f1 ff1 s d).2.2 =
      (Except.ok (), (sinkOp op1 f1 ff1 s d).2.1, (sinkOp op1 f1 ff1 s d).2.2) :=
  ⟨sinkOp_sets_closed op1 f1 ff1 s d,
    sinkOp_on_closed op2 f2 ff2 _ _ (sinkOp_sets_closed op1 f1 ff1 s d)⟩

/-! ### C2: Open fails with "CRC mismatch" on a corrupted state file -/

/-- C2: for every snapshot whose readable meta and state file disagree (the
stored CRC is not the CRC64-ECMA of the state bytes), Open returns the error
"CRC mismatch", no reader, and closes the state file handle it opened. -/
theorem open_crc_mismatch (d : DiskState) (id : String) (m : fileSnapshotMeta)
    (st : List Nat) (hm : readMeta d id = some m) (hs : stateBytes d id = some st)
    (hcrc : m.CRC ≠ some (crc64 st)) :
    storeOpen d id = ⟨Except.error "CRC mismatch", true, true⟩ := by
  unfold storeOpen
  rw [hm, hs]
  have hne : crcEqual m.CRC (crc64 st) = false := by
    unfold crcEqual
    rw [beq_eq_false_iff_ne]
    exact hcrc
  simp [hne]

/-- C2 fixture: a snapshot whose state file had its last byte flipped
("abcd" was written and hashed; the file now holds "abce"). -/
def c2Meta : fileSnapshotMeta :=
  ⟨⟨1, "1-1-1", 1, 1, [], 0, 0, 4⟩, some (crc64 [97, 98, 99, 100])⟩

/-- C2 fixture: the snapshot directory holding the tampered state file. -/
def c2Disk : DiskState :=
  ⟨[("1-1-1", FsEntry.dir (some c2Meta) (some [97, 98, 99, 101]))]⟩

/-- C2 witness: opening the tampered snapshot fails with "CRC mismatch" and
closes the state file handle. -/
theorem open_crc_mismatch_witness :
    (readMeta c2Disk "1-1-1" = some c2Meta ∧
      stateBytes c2Disk "1-1-1" = some [97, 98, 99, 101] ∧
      c2Meta.CRC ≠ some (crc64 [97, 98, 99, 101])) ∧
    storeOpen c2Disk "1-1-1" = ⟨Except.error "CRC mismatch", true, true⟩ :=
  ⟨⟨by decide, by decide, by decide⟩,
    open_crc_mismatch c2Disk "1-1-1" c2Meta [97, 98, 99, 101]
      (by decide) (by decide) (by decide)⟩

/-! ### C8: a finalize failure during Close removes the temp directory -/

/-- C8: if a finalize step (flush, state-file fsync, stat or close) fails
during Sink.Close, Close returns an error, the temporary snapshot directory
is deleted, and every other directory entry is untouched — in particular
nothing appears under the snapshot's final name. -/
theorem close_finalize_failure (f : FileSnapshotStore) (s : FileSnapshotSink)
    (d : DiskState) (h : s.closed = false) :
    (sinkClose f s d true).1 = Except.error "failed to finalize snapshot" ∧
    lookupEntry (sinkClose f s d true).2.2 s.dir = none ∧
    (∀ n, n ≠ s.dir → lookupEntry (sinkClose f s d true).2.2 n = lookupEntry d n) := by
  have e : sinkClose f s d true =
      (Except.error "failed to finalize snapshot", { s with closed := true },
        ⟨d.entries.filter (fun e => e.1 ≠ s.dir)⟩) := by
    unfold sinkClose
    simp [h]
  refine ⟨by rw [e], ?_, ?_⟩
  · rw [e]
    unfold lookupEntry
    have hf : List.find? (fun e => e.1 = s.dir)
        (d.entries.filter (fun e => e.1 ≠ s.dir)) = none := by
      rw [List.find?_eq_none]
      intro x hx
      have hx2 := (List.mem_filter.mp hx).2
      simp only [decide_eq_true_eq] at hx2
      simp only [decide_eq_true_eq]
      exact hx2
    rw [hf]
    rfl
  · intro n hn
    rw [e]
    unfold lookupEntry
    rw [find?_name_filter_ne d.entries s.dir n hn]

/-- C8 fixture: an open sink mid-write. -/
def c8Sink : FileSnapshotSink :=
  ⟨"1-2-3.tmp", ⟨⟨1, "1-2-3", 2, 1, [], 0, 0, 0⟩, none⟩, [5], false⟩

/-- C8 fixture: the directory while the sink is open. -/
def c8Disk : DiskState :=
  ⟨[("1-2-3.tmp", FsEntry.dir (some ⟨⟨1, "1-2-3", 2, 1, [], 0, 0, 0⟩, none⟩) (some []))]⟩

/-- C8 witness: a failing finalize during Close of the fixture sink errors
out, removes the temp directory, and leaves unrelated names alone. -/
theorem close_finalize_failure_witness :
    c8Sink.closed = false ∧
    (sinkClose ⟨1⟩ c8Sink c8Disk true).1 = Except.error "failed to finalize snapshot" ∧
    lookupEntry (sinkClose ⟨1⟩ c8Sink c8Disk true).2.2 c8Sink.dir = none ∧
    lookupEntry (sinkClose ⟨1⟩ c8Sink c8Disk true).2.2 "1-2-3" = lookupEntry c8Disk "1-2-3" :=
  ⟨rfl, (close_finalize_failure ⟨1⟩ c8Sink c8Disk rfl).1,
    (close_finalize_failure ⟨1⟩ c8Sink c8Disk rfl).2.1,
    (close_finalize_failure ⟨1⟩ c8Sink c8Disk rfl).2.2 "1-2-3" (by decide)⟩

/-! ### C5: pipeline responses arrive in request order -/

theorem map_fst_zip_eq_take {α β : Type} :
    ∀ (s : List α) (r : List β), r.length ≤ s.length →
      (s.zip r).map Prod.fst = s.take r.length := by
  intro s
  induction s with
  | nil =>
    intro r h
    have : r = [] := List.eq_nil_of_length_eq_zero (Nat.le_zero.mp (by simpa using h))
    simp [this]
  | cons a s ih =>
    intro r h
    cases r with
    | nil => simp
    | cons b r2 =>
      simp only [List.zip_cons_cons, List.map_cons, List.length_cons, List.take_succ_cons]
      rw [ih r2 (by simpa using h)]

theorem pipeFold_emitted :
    ∀ (trace : List PipeEvent) (st : PipeState),
      pipeWFFrom st.pending.length trace = true →
      (trace.foldl pipeStep st).emitted =
        st.emitted ++ (st.pending ++ pipeSends trace).zip (pipeRecvs trace) := by
  intro trace
  induction trace with
  | nil =>
    intro st _
    simp [pipeSends, pipeRecvs]
  | cons e rest ih =>
    intro st h
    cases e with
    | send r =>
      unfold pipeWFFrom at h
      have h2 := ih { st with pending := st.pending ++ [r] } (by simpa using h)
      simp only [List.foldl_cons]
      have hstep : pipeStep st (PipeEvent.send r) = { st with pending := st.pending ++ [r] } := rfl
      rw [hstep, h2]
      simp [pipeSends, pipeRecvs, List.filterMap_cons]
    | recv x =>
      unfold pipeWFFrom at h
      simp only [Bool.and_eq_true] at h
      obtain ⟨h1, h2⟩ := h
      cases hp : st.pending with
      | nil =>
        rw [hp] at h1
        simp at h1
      | cons future ps =>
        have hstep : pipeStep st (PipeEvent.recv x) = ⟨ps, st.emitted ++ [(future, x)]⟩ := by
          unfold pipeStep
          rw [hp]
        have h3 := ih ⟨ps, st.emitted ++ [(future, x)]⟩
          (by
            rw [hp] at h2
            simpa using h2)
        simp only [List.foldl_cons]
        rw [hstep, h3]
        simp [pipeSends, pipeRecvs, List.filterMap_cons, List.zip_cons_cons]

theorem pipeWFFrom_recvs_le :
    ∀ (trace : List PipeEvent) (pend : Nat),
      pipeWFFrom pend trace = true →
      (pipeRecvs trace).length ≤ pend + (pipeSends trace).length := by
  intro trace
  induction trace with
  | nil =>
    intro pend _
    simp [pipeSends, pipeRecvs]
  | cons e rest ih =>
    intro pend h
    cases e with
    | send r =>
      unfold pipeWFFrom at h
      have := ih (pend + 1) h
      simp only [pipeSends, pipeRecvs, List.filterMap_cons] at *
      simp at this ⊢
      omega
    | recv x =>
      unfold pipeWFFrom at h
      simp only [Bool.and_eq_true] at h
      obtain ⟨h1, h2⟩ := h
      have hp : pend ≠ 0 := by simpa using h1
      have := ih (pend - 1) h2
      simp only [pipeSends, pipeRecvs, List.filterMap_cons] at *
      simp at this ⊢
      omega

/-- C5: on a single AppendEntries pipeline, for any well-formed trace of
queued requests and received responses, the futures emitted on the consumer
channel pair the requests with the responses strictly in queue order: the
i-th emitted future carries the i-th queued request and completes with the
i-th received response, so the first N responses correspond in order to the
first N requests. -/
theorem pipeline_fifo (trace : List PipeEvent) (h : pipeWF trace = true) :
    (pipeRun trace).emitted = (pipeSends trace).zip (pipeRecvs trace) ∧
    (pipeRun trace).emitted.map Prod.fst =
      (pipeSends trace).take (pipeRecvs trace).length := by
  have h0 : pipeWFFrom (⟨[], []⟩ : PipeState).pending.length trace = true := by
    simpa [pipeWF] using h
  have h1 := pipeFold_emitted trace ⟨[], []⟩ h0
  simp only [List.nil_append] at h1
  have hrun : (pipeRun trace).emitted = (pipeSends trace).zip (pipeRecvs trace) := h1
  refine ⟨hrun, ?_⟩
  rw [hrun]
  refine map_fst_zip_eq_take _ _ ?_
  have := pipeWFFrom_recvs_le trace 0 (by simpa [pipeWF] using h)
  simpa using this

/-- C5 fixture: two queued requests answered by two responses. -/
def c5Trace : List PipeEvent :=
  [PipeEvent.send 1, PipeEvent.send 2, PipeEvent.recv 10, PipeEvent.recv 20]

/-- C5 witness: the fixture trace is well formed and its consumer output
pairs requests and responses in queue order. -/
theorem pipeline_fifo_witness :
    pipeWF c5Trace = true ∧
    (pipeRun c5Trace).emitted = [(1, 10), (2, 20)] ∧
    (pipeRun c5Trace).emitted = (pipeSends c5Trace).zip (pipeRecvs c5Trace) :=
  ⟨by decide, by decide, (pipeline_fifo c5Trace (by decide)).1⟩

/-! ### C6: MaxRPCsInFlight handling -/

/-- C6 counterexample: with `MaxRPCsInFlight = 0` the claim puts the
in-flight channel capacity at `max(0, 2) = 2`, yet also requires the k-th
unanswered send to block exactly at k = effective limit = 2; under the
write-then-push flow control the 2nd push into a 2-slot channel holding one
future does not block, so the two halves of the claim contradict each other
(and the source test demands that the 2nd send does block). -/
theorem pipeline_capacity_counterexample :
    ¬ (sendBlocks (pipelineChanCapacitySpec 0) 2 = true ↔
        2 = pipelineEffectiveLimit 0) := by
  decide

/-- C6 (amended): `append_entries_pipeline` with `MaxRPCsInFlight = 1` fails
with the sentinel pipeline-replication-not-supported error; 0 defaults to an
effective limit of 2; the in-flight channel capacity is
`max(MaxRPCsInFlight, 2) - 1`, so under the write-then-push discipline the
k-th consecutive unanswered send blocks exactly for k at or beyond the
effective limit `max(MaxRPCsInFlight, 2)` — in particular the first send to
block is the limit-th, as the source test requires. -/
theorem pipeline_maxInFlight (cfg k : Nat) :
    appendEntriesPipeline 1 = Except.error "pipeline replication not supported" ∧
    pipelineEffectiveLimit 0 = 2 ∧
    (cfg ≠ 1 → appendEntriesPipeline cfg = Except.ok (pipelineChanCapacity cfg)) ∧
    (1 ≤ k → (sendBlocks (pipelineChanCapacity cfg) k = true ↔
      pipelineEffectiveLimit cfg ≤ k)) := by
  refine ⟨rfl, rfl, ?_, ?_⟩
  · intro hcfg
    unfold appendEntriesPipeline
    rw [if_neg hcfg]
  · intro hk
    unfold sendBlocks pipelineChanCapacity pipelineEffectiveLimit
    have h2 : 2 ≤ max cfg 2 := le_max_right cfg 2
    constructor
    · intro h
      have := of_decide_eq_true h
      omega
    · intro h
      exact decide_eq_true (by omega)

/-- C6 witness: configured 0, the pipeline is created with the effective
limit 2 and the 2nd unanswered send is blocked; configured 1, creation is
refused. -/
theorem pipeline_maxInFlight_witness :
    appendEntriesPipeline 1 = Except.error "pipeline replication not supported" ∧
    appendEntriesPipeline 0 = Except.ok (pipelineChanCapacity 0) ∧
    (sendBlocks (pipelineChanCapacity 0) 2 = true ↔ pipelineEffectiveLimit 0 ≤ 2) :=
  ⟨(pipeline_maxInFlight 0 2).1,
    (pipeline_maxInFlight 0 2).2.2.1 (by decide),
    (pipeline_maxInFlight 0 2).2.2.2 (by decide)⟩

/-! ### C3: List returns the newest `retain` snapshots, newest first -/

theorem takeRetain_eq_take :
    ∀ (l : List fileSnapshotMeta) (retain sofar : Int), sofar < retain →
      takeRetain retain sofar l = (l.take (retain - sofar).toNat).map (fun m => m.meta) := by
  intro l
  induction l with
  | nil => intro retain sofar _; simp [takeRetain]
  | cons m rest ih =>
    intro retain sofar hlt
    unfold takeRetain
    by_cases h : sofar + 1 = retain
    · rw [if_pos h]
      have h1 : (retain - sofar).toNat = 1 := by omega
      rw [h1]
      simp
    · rw [if_neg h]
      have h2 : sofar + 1 < retain := by omega
      rw [ih retain (sofar + 1) h2]
      have h3 : (retain - sofar).toNat = (retain - (sofar + 1)).toNat + 1 := by omega
      rw [h3]
      simp

/-- C3: for every on-disk state, `List` returns the metadata of at most
`retain` snapshots — exactly the first `retain` of the eligible snapshots
sorted newest first — the result is ordered by (Term, Index, ID) descending,
and every eligible snapshot that was not returned is at most as new as every
returned one. -/
theorem list_retention_sorted (f : FileSnapshotStore) (d : DiskState)
    (hr : 1 ≤ f.retain) :
    storeList f d = ((getSnapshots d).take f.retain.toNat).map (fun m => m.meta) ∧
    (storeList f d).length ≤ f.retain.toNat ∧
    List.Pairwise (fun a b => metaKeyLE b a) (storeList f d) ∧
    (∀ m ∈ getSnapshots d, m.meta ∉ storeList f d →
      ∀ x ∈ storeList f d, metaKeyLE m.meta x) := by
  have heq : storeList f d =
      ((getSnapshots d).take f.retain.toNat).map (fun m => m.meta) := by
    unfold storeList
    have h0 := takeRetain_eq_take (getSnapshots d) f.retain 0 (by omega)
    simpa using h0
  have hsorted : List.Pairwise snapDescGE (getSnapshots d) :=
    List.sorted_insertionSort snapDescGE (eligibleMetas d)
  refine ⟨heq, ?_, ?_, ?_⟩
  · rw [heq]
    simp only [List.length_map, List.length_take]
    exact min_le_left _ _
  · rw [heq]
    rw [List.pairwise_map]
    have htake : List.Pairwise snapDescGE ((getSnapshots d).take f.retain.toNat) :=
      List.Pairwise.sublist (List.take_sublist _ _) hsorted
    exact htake.imp (fun hab => (snapDescGE_iff _ _).mp hab)
  · intro m hm hnot x hx
    rw [heq] at hnot hx
    rcases List.mem_map.mp hx with ⟨y, hy, hyx⟩
    have hmd : m ∈ (getSnapshots d).drop f.retain.toNat := by
      have hsplit : m ∈ (getSnapshots d).take f.retain.toNat ∨
          m ∈ (getSnapshots d).drop f.retain.toNat := by
        rw [← List.take_append_drop f.retain.toNat (getSnapshots d)] at hm
        exact List.mem_append.mp hm
      rcases hsplit with h | h
      · exact absurd (List.mem_map.mpr ⟨m, h, rfl⟩) hnot
      · exact h
    have happ := hsorted
    rw [← List.take_append_drop f.retain.toNat (getSnapshots d)] at happ
    have hcross := (List.pairwise_append.mp happ).2.2 y hy m hmd
    rw [← hyx]
    exact (snapDescGE_iff y m).mp hcross

/-- C3 fixture: three finalized snapshots of terms 1, 3 and 2. -/
def c3Disk : DiskState :=
  ⟨[("1-1-10", FsEntry.dir (some ⟨⟨1, "1-1-10", 1, 1, [], 0, 0, 0⟩, some 0⟩) (some [])),
    ("3-1-30", FsEntry.dir (some ⟨⟨1, "3-1-30", 1, 3, [], 0, 0, 0⟩, some 0⟩) (some [])),
    ("2-1-20", FsEntry.dir (some ⟨⟨1, "2-1-20", 1, 2, [], 0, 0, 0⟩, some 0⟩) (some []))]⟩

/-- C3 witness: with retain 2 the store lists the term-3 and term-2
snapshots, newest first, and no more than two entries. -/
theorem list_retention_sorted_witness :
    (1 : Int) ≤ (⟨2⟩ : FileSnapshotStore).retain ∧
    storeList ⟨2⟩ c3Disk =
      [⟨1, "3-1-30", 1, 3, [], 0, 0, 0⟩, ⟨1, "2-1-20", 1, 2, [], 0, 0, 0⟩] ∧
    (storeList ⟨2⟩ c3Disk).length ≤ (⟨2⟩ : FileSnapshotStore).retain.toNat :=
  ⟨by decide, by decide, (list_retention_sorted ⟨2⟩ c3Disk (by decide)).2.1⟩


/-! ### C4: retention after Close -/

theorem eligOf_some {p : String × FsEntry} {m : fileSnapshotMeta}
    (he : eligOf p = some m) :
    hasTmpSuffix p.1 = false ∧ ∃ st, p.2 = FsEntry.dir (some m) st := by
  obtain ⟨nm, pe⟩ := p
  cases pe with
  | file c => exact absurd he (by simp [eligOf])
  | dir mf st =>
    cases mf with
    | none =>
      exfalso
      simp [eligOf] at he
    | some m0 =>
      simp only [eligOf] at he
      split at he
      case isTrue ht => exact absurd he (by simp)
      case isFalse ht =>
        split at he
        case isTrue => exact absurd he (by simp)
        case isFalse =>
          injection he with he2
          exact ⟨by simpa using ht, st, by rw [he2]⟩

theorem eligOf_id {p : String × FsEntry} {m : fileSnapshotMeta}
    (hw : entryWellNamed p = true) (he : eligOf p = some m) :
    m.meta.ID = p.1 := by
  obtain ⟨ht, st, hp⟩ := eligOf_some he
  unfold entryWellNamed at hw
  rw [hp] at hw
  simp only [ht, Bool.false_or] at hw
  exact eq_of_beq hw

theorem filterMap_elig_filter (victims : List String) :
    ∀ (l : List (String × FsEntry)), (∀ p ∈ l, entryWellNamed p = true) →
      (l.filter (fun e => !victims.contains e.1)).filterMap eligOf =
        (l.filterMap eligOf).filter (fun m => !victims.contains m.meta.ID) := by
  intro l
  induction l with
  | nil => intro _; rfl
  | cons p rest ih =>
    intro hw
    have hwp := hw p (List.mem_cons_self p rest)
    have hwr : ∀ q ∈ rest, entryWellNamed q = true :=
      fun q hq => hw q (List.mem_cons_of_mem p hq)
    rw [List.filter_cons, List.filterMap_cons]
    cases he : eligOf p with
    | none =>
      by_cases hkeep : (!victims.contains p.1) = true
      · rw [hkeep]
        simp only [if_true]
        rw [List.filterMap_cons, he, ih hwr]
      · rw [Bool.eq_false_iff.mpr hkeep]
        simp only [Bool.false_eq_true, if_false]
        exact ih hwr
    | some m =>
      have hid : m.meta.ID = p.1 := eligOf_id hwp he
      by_cases hkeep : (!victims.contains p.1) = true
      · rw [hkeep]
        simp only [if_true]
        rw [List.filterMap_cons, he, List.filter_cons, hid, hkeep]
        simp only [if_true]
        rw [ih hwr]
      · rw [Bool.eq_false_iff.mpr hkeep]
        simp only [Bool.false_eq_true, if_false]
        rw [List.filter_cons, hid, Bool.eq_false_iff.mpr hkeep]
        simp only [Bool.false_eq_true, if_false]
        exact ih hwr

theorem elig_ids_nodup :
    ∀ (l : List (String × FsEntry)), (∀ p ∈ l, entryWellNamed p = true) →
      (l.map Prod.fst).Nodup →
      ((l.filterMap eligOf).map (fun m => m.meta.ID)).Nodup := by
  intro l
  induction l with
  | nil => intro _ _; simp
  | cons p rest ih =>
    intro hw hnd
    have hwp := hw p (List.mem_cons_self p rest)
    have hwr : ∀ q ∈ rest, entryWellNamed q = true :=
      fun q hq => hw q (List.mem_cons_of_mem p hq)
    simp only [List.map_cons, List.nodup_cons] at hnd
    obtain ⟨hp1, hnd2⟩ := hnd
    rw [List.filterMap_cons]
    cases he : eligOf p with
    | none => exact ih hwr hnd2
    | some m =>
      simp only [List.map_cons, List.nodup_cons]
      refine ⟨?_, ih hwr hnd2⟩
      intro hmem
      rcases List.mem_map.mp hmem with ⟨m2, hm2, hid2⟩
      rcases List.mem_filterMap.mp hm2 with ⟨q, hq, hq2⟩
      have hidq : m2.meta.ID = q.1 := eligOf_id (hwr q hq) hq2
      have hidp : m.meta.ID = p.1 := eligOf_id hwp he
      apply hp1
      rw [← hidp, ← hid2, hidq]
      exact List.mem_map.mpr ⟨q, hq, rfl⟩

theorem filter_not_mem_take (S : List fileSnapshotMeta) (n : Nat) (ids : List String)
    (hids : ids = (S.drop n).map (fun m => m.meta.ID))
    (hnd : (S.map (fun m => m.meta.ID)).Nodup) :
    S.filter (fun m => !ids.contains m.meta.ID) = S.take n := by
  have hsplit : (S.map fun m => m.meta.ID) =
      ((S.take n).map fun m => m.meta.ID) ++ ((S.drop n).map fun m => m.meta.ID) := by
    rw [← List.map_append, List.take_append_drop]
  rw [hsplit] at hnd
  have hdisj := (List.nodup_append.mp hnd).2.2
  conv_lhs => rw [← List.take_append_drop n S]
  rw [List.filter_append]
  have h1 : (S.take n).filter (fun m => !ids.contains m.meta.ID) = S.take n := by
    rw [List.filter_eq_self]
    intro m hm
    rw [hids]
    simp only [List.contains, List.elem_eq_mem, Bool.not_eq_true', decide_eq_false_iff_not]
    exact hdisj (List.mem_map.mpr ⟨m, hm, rfl⟩)
  have h2 : (S.drop n).filter (fun m => !ids.contains m.meta.ID) = [] := by
    rw [List.filter_eq_nil_iff]
    intro m hm
    rw [hids]
    simp only [List.contains, List.elem_eq_mem, Bool.not_eq_true', decide_eq_false_iff_not,
      not_not]
    exact List.mem_map.mpr ⟨m, hm, rfl⟩
  rw [h1, h2, List.append_nil]

theorem getSnapshots_reap_perm (f : FileSnapshotStore) (d : DiskState)
    (hwn : wellNamed d) (hnd : nodupNames d) :
    List.Perm (getSnapshots (reapSnapshots f d))
      ((getSnapshots d).take f.retain.toNat) := by
  have h1 : eligibleMetas (reapSnapshots f d) =
      (eligibleMetas d).filter (fun m => !(reapVictims f d).contains m.meta.ID) :=
    filterMap_elig_filter (reapVictims f d) d.entries hwn
  have hperm2 : List.Perm (eligibleMetas d) (getSnapshots d) :=
    (List.perm_insertionSort snapDescGE (eligibleMetas d)).symm
  have hndS : ((getSnapshots d).map (fun m => m.meta.ID)).Nodup := by
    have h0 := elig_ids_nodup d.entries hwn hnd
    exact ((hperm2.map (fun m => m.meta.ID)).nodup_iff).mp h0
  have h4 : (getSnapshots d).filter (fun m => !(reapVictims f d).contains m.meta.ID) =
      (getSnapshots d).take f.retain.toNat :=
    filter_not_mem_take (getSnapshots d) f.retain.toNat (reapVictims f d) rfl hndS
  have p1 : List.Perm (getSnapshots (reapSnapshots f d))
      (eligibleMetas (reapSnapshots f d)) :=
    List.perm_insertionSort snapDescGE (eligibleMetas (reapSnapshots f d))
  rw [h1] at p1
  have p2 := hperm2.filter (fun m => !(reapVictims f d).contains m.meta.ID)
  have p3 := p1.trans p2
  rw [h4] at p3
  exact p3

/-- C4: reaping (which every successful Close triggers) keeps exactly the
newest `retain` of the eligible snapshots: the reaped directory's eligible
snapshots are a permutation of the first `retain` of the sorted listing
(`ReapSnapshots` deletes everything beyond them), in particular at most
`retain` many, still presented newest first; and a successful Close returns
nil and ends in a reaped directory state. -/
theorem close_retention (f : FileSnapshotStore) (d : DiskState) (hr : 1 ≤ f.retain)
    (hwn : wellNamed d) (hnd : nodupNames d) :
    List.Perm (getSnapshots (reapSnapshots f d))
      ((getSnapshots d).take f.retain.toNat) ∧
    (getSnapshots (reapSnapshots f d)).length ≤ f.retain.toNat ∧
    List.Pairwise snapDescGE (getSnapshots (reapSnapshots f d)) ∧
    (∀ s : FileSnapshotSink, s.closed = false →
      (sinkClose f s d false).1 = Except.ok () ∧
      ∃ dMid : DiskState, (sinkClose f s d false).2.2 = reapSnapshots f dMid) := by
  have hperm := getSnapshots_reap_perm f d hwn hnd
  refine ⟨hperm, ?_, ?_, ?_⟩
  · rw [hperm.length_eq]
    simp only [List.length_take]
    exact min_le_left _ _
  · exact List.sorted_insertionSort snapDescGE (eligibleMetas (reapSnapshots f d))
  · intro s hs
    have e : sinkClose f s d false =
        (Except.ok (), { s with closed := true, meta := finalizeMeta s },
          reapSnapshots f
            (installSnapshot { s with closed := true, meta := finalizeMeta s } d)) := by
      unfold sinkClose
      simp [hs]
    exact ⟨by rw [e], installSnapshot { s with closed := true, meta := finalizeMeta s } d,
      by rw [e]⟩

/-- C4 fixture: two finalized snapshots of terms 1 and 2. -/
def c4Disk : DiskState :=
  ⟨[("1-1-10", FsEntry.dir (some ⟨⟨1, "1-1-10", 1, 1, [], 0, 0, 0⟩, some 0⟩) (some [])),
    ("2-1-20", FsEntry.dir (some ⟨⟨1, "2-1-20", 1, 2, [], 0, 0, 0⟩, some 0⟩) (some []))]⟩

/-- C4 witness: with retain 1 the reaped directory keeps at most one
snapshot, and it is the term-2 one. -/
theorem close_retention_witness :
    ((1 : Int) ≤ (⟨1⟩ : FileSnapshotStore).retain ∧ wellNamed c4Disk ∧ nodupNames c4Disk) ∧
    (getSnapshots (reapSnapshots ⟨1⟩ c4Disk)).length ≤
      (⟨1⟩ : FileSnapshotStore).retain.toNat ∧
    getSnapshots (reapSnapshots ⟨1⟩ c4Disk) = [⟨⟨1, "2-1-20", 1, 2, [], 0, 0, 0⟩, some 0⟩] :=
  ⟨⟨by decide, by decide, by decide⟩,
    (close_retention ⟨1⟩ c4Disk (by decide) (by decide) (by decide)).2.1,
    by decide⟩

/-! ### C1: create/write/close/open round-trip -/

theorem sinkWriteAll_written :
    ∀ (bs : List (List Nat)) (s : FileSnapshotSink),
      sinkWriteAll s bs = { s with written := s.written ++ bs.flatten } := by
  intro bs
  induction bs with
  | nil => intro s; simp [sinkWriteAll]
  | cons b rest ih =>
    intro s
    unfold sinkWriteAll
    rw [List.foldl_cons]
    have h1 : List.foldl sinkWrite (sinkWrite s b) rest = sinkWriteAll (sinkWrite s b) rest := rfl
    rw [h1, ih (sinkWrite s b)]
    simp [sinkWrite]

theorem trimTmpSuffix_append (n : String) : trimTmpSuffix (n ++ ".tmp") = n := by
  have hdata : (n ++ ".tmp").data = n.data ++ ['.', 't', 'm', 'p'] := by
    rw [String.data_append]
  have hsuf : hasTmpSuffix (n ++ ".tmp") = true := by
    unfold hasTmpSuffix
    rw [List.isSuffixOf_iff_suffix, hdata]
    exact List.suffix_append n.data ['.', 't', 'm', 'p']
  unfold trimTmpSuffix
  rw [if_pos hsuf, hdata]
  have hlen : (n.data ++ ['.', 't', 'm', 'p']).length - 4 = n.data.length := by
    simp
  rw [hlen, List.take_left' rfl]

theorem metaKeyLT_ext {a b b2 : SnapshotMeta} (ht : b.Term = b2.Term)
    (hi : b.Index = b2.Index) (hid : b.ID = b2.ID) :
    metaKeyLT a b ↔ metaKeyLT a b2 := by
  unfold metaKeyLT
  rw [ht, hi, hid]

theorem eligOf_final (name : String) (fm : fileSnapshotMeta) (st : List Nat)
    (htmp : hasTmpSuffix name = false) (hv : fm.meta.Version = 1) :
    eligOf (name, FsEntry.dir (some fm) (some st)) = some fm := by
  unfold eligOf
  simp [htmp, hv, SnapshotVersionMin, SnapshotVersionMax]

theorem eligibleMetas_append (d : DiskState) (p : String × FsEntry)
    (m : fileSnapshotMeta) (he : eligOf p = some m) :
    eligibleMetas ⟨d.entries ++ [p]⟩ = eligibleMetas d ++ [m] := by
  unfold eligibleMetas
  rw [List.filterMap_append]
  simp [List.filterMap_cons, he]

theorem insertionSort_strict_max (l : List fileSnapshotMeta) (fm : fileSnapshotMeta)
    (h : ∀ m ∈ l, metaKeyLT m.meta fm.meta) :
    ∃ t, List.insertionSort snapDescGE (l ++ [fm]) = fm :: t ∧ List.Perm t l := by
  have hp : List.Perm (List.insertionSort snapDescGE (l ++ [fm])) (l ++ [fm]) :=
    List.perm_insertionSort _ _
  have hs : List.Pairwise snapDescGE (List.insertionSort snapDescGE (l ++ [fm])) :=
    List.sorted_insertionSort _ _
  cases hres : List.insertionSort snapDescGE (l ++ [fm]) with
  | nil =>
    exfalso
    have hfm : fm ∈ List.insertionSort snapDescGE (l ++ [fm]) :=
      hp.mem_iff.mpr (by simp)
    rw [hres] at hfm
    exact absurd hfm (List.not_mem_nil fm)
  | cons h1 t =>
    rw [hres] at hp hs
    have hh1 : h1 = fm := by
      have hmem : h1 ∈ l ++ [fm] := hp.subset (List.mem_cons_self h1 t)
      rcases List.mem_append.mp hmem with hin | hin
      · exfalso
        have hfm : fm ∈ h1 :: t := hp.mem_iff.mpr (by simp)
        rcases List.mem_cons.mp hfm with he | he
        · have hlt := h h1 hin
          rw [← he] at hlt
          exact metaKeyLT_asymm hlt hlt
        · have hge := (List.pairwise_cons.mp hs).1 fm he
          have hle := (snapDescGE_iff h1 fm).mp hge
          rw [metaKeyLE_iff] at hle
          exact hle (h h1 hin)
      · simpa using hin
    refine ⟨t, by rw [hh1], ?_⟩
    rw [hh1] at hp
    have h2 : List.Perm (l ++ [fm]) (fm :: l) := List.perm_append_singleton fm l
    exact (hp.trans h2).cons_inv

theorem installSnapshot_fresh (dirName : String) (mta : fileSnapshotMeta)
    (w : List Nat) (cl : Bool) (d0 : DiskState) (e : FsEntry)
    (hall : ∀ p ∈ d0.entries, p.1 ≠ dirName) :
    installSnapshot ⟨dirName, mta, w, cl⟩ ⟨d0.entries ++ [(dirName, e)]⟩ =
      ⟨d0.entries ++ [(trimTmpSuffix dirName, FsEntry.dir (some mta) (some w))]⟩ := by
  unfold installSnapshot
  congr 1
  rw [List.map_append]
  rw [map_eq_self_of d0.entries _ (fun x hx => if_neg (hall x hx))]
  simp

/-- The sink `Create` hands back (ID = name, CRC still nil, nothing written);
tied to `storeCreate` by `storeCreate_eq`. -/
def createdSink (name : String) (index term configuration configurationIndex : Nat)
    (peers : List Nat) : FileSnapshotSink :=
  ⟨name ++ ".tmp",
    ⟨⟨1, name, index, term, peers, configuration, configurationIndex, 0⟩, none⟩,
    [], false⟩

/-- The directory right after `Create`: the fresh `<name>.tmp` directory with
its initial `meta.json` and empty `state.bin`; tied to `storeCreate` by
`storeCreate_eq`. -/
def createdDisk (d : DiskState) (name : String)
    (index term configuration configurationIndex : Nat) (peers : List Nat) : DiskState :=
  ⟨d.entries ++ [(name ++ ".tmp",
    FsEntry.dir
      (some ⟨⟨1, name, index, term, peers, configuration, configurationIndex, 0⟩, none⟩)
      (some []))]⟩

/-- The meta `Close` finalizes: Size and CRC of everything written. -/
def closedMeta (name : String) (index term configuration configurationIndex : Nat)
    (peers : List Nat) (w : List Nat) : fileSnapshotMeta :=
  ⟨⟨1, name, index, term, peers, configuration, configurationIndex, (w.length : Int)⟩,
    some (crc64 w)⟩

theorem storeCreate_eq (d : DiskState) (name : String)
    (index term configuration configurationIndex : Nat) (peers : List Nat)
    (hfresh1 : lookupEntry d (name ++ ".tmp") = none) :
    storeCreate d 1 index term configuration configurationIndex peers name =
      Except.ok (createdSink name index term configuration configurationIndex peers,
        createdDisk d name index term configuration configurationIndex peers) := by
  have hall1 : ∀ p ∈ d.entries, p.1 ≠ name ++ ".tmp" :=
    (lookupEntry_none_iff d _).mp hfresh1
  have hany : (d.entries.any fun p => p.1 = name ++ ".tmp") = false := by
    rw [List.any_eq_false]
    intro p hp
    simpa using hall1 p hp
  unfold storeCreate upsertEntry createdSink createdDisk
  simp [hany]

theorem lookup_reap_fresh (f : FileSnapshotStore) (d0 : DiskState) (nm : String)
    (e : FsEntry) (hall : ∀ p ∈ d0.entries, p.1 ≠ nm)
    (hvic : (reapVictims f ⟨d0.entries ++ [(nm, e)]⟩).contains nm = false) :
    lookupEntry (reapSnapshots f ⟨d0.entries ++ [(nm, e)]⟩) nm = some e := by
  unfold reapSnapshots lookupEntry
  rw [List.filter_append]
  have hnone : ∀ x ∈ d0.entries.filter
      (fun p => !(reapVictims f ⟨d0.entries ++ [(nm, e)]⟩).contains p.1),
      (fun p => decide (p.1 = nm)) x = false := by
    intro x hx
    simp only [decide_eq_false_iff_not]
    exact hall x (List.mem_filter.mp hx).1
  rw [find?_append_of_none _ _ _ hnone]
  rw [List.filter_cons]
  have hnm : nm ∉ reapVictims f ⟨d0.entries ++ [(nm, e)]⟩ := by
    simpa [List.contains, List.elem_eq_mem] using hvic
  simp [hnm]

theorem readMeta_of_lookup {d : DiskState} {nm : String} {m : fileSnapshotMeta}
    {st : Option (List Nat)}
    (h : lookupEntry d nm = some (FsEntry.dir (some m) st)) :
    readMeta d nm = some m := by
  unfold readMeta
  rw [h]

theorem stateBytes_of_lookup {d : DiskState} {nm : String} {mf : Option fileSnapshotMeta}
    {st : List Nat}
    (h : lookupEntry d nm = some (FsEntry.dir mf (some st))) :
    stateBytes d nm = some st := by
  unfold stateBytes
  rw [h]

theorem storeOpen_ok {d : DiskState} {nm : String} {m : fileSnapshotMeta} {st : List Nat}
    (hm : readMeta d nm = some m) (hs : stateBytes d nm = some st)
    (hcrc : m.CRC = some (crc64 st)) :
    storeOpen d nm = ⟨Except.ok (m, st, 0), true, false⟩ := by
  unfold storeOpen
  rw [hm, hs]
  have he : crcEqual m.CRC (crc64 st) = true := by
    unfold crcEqual
    rw [hcrc]
    simp
  simp [he]

/-- C1 (amended): for every snapshot written through the store — Create with
version 1 under a fresh clock-derived name in a store-managed directory, any
sequence of Sink.Write calls, then a succeeding Sink.Close — provided the
new snapshot is not pruned by the retention pass Close triggers (here: its
(Term, Index, ID) is newer than every snapshot already on disk, which is the
Raft regime), Open on the resulting snapshot ID succeeds, the returned
reader sits at offset 0 and yields exactly the bytes that were written in
order, and the CRC64-ECMA stored in the meta by Close is the CRC of the
state file Open verifies. -/
theorem create_write_close_open_roundtrip
    (f : FileSnapshotStore) (d : DiskState) (name : String)
    (index term configuration configurationIndex : Nat) (peers : List Nat)
    (writes : List (List Nat))
    (hr : 1 ≤ f.retain) (hwn : wellNamed d) (htmp : hasTmpSuffix name = false)
    (hfresh1 : lookupEntry d (name ++ ".tmp") = none)
    (hfresh2 : lookupEntry d name = none)
    (hnewest : ∀ m ∈ eligibleMetas d,
      metaKeyLT m.meta ⟨1, name, index, term, peers, configuration, configurationIndex, 0⟩) :
    ∃ s0 d1,
      storeCreate d 1 index term configuration configurationIndex peers name =
        Except.ok (s0, d1) ∧
      (sinkClose f (sinkWriteAll s0 writes) d1 false).1 = Except.ok () ∧
      ∃ fm,
        storeOpen (sinkClose f (sinkWriteAll s0 writes) d1 false).2.2 name =
          ⟨Except.ok (fm, writes.flatten, 0), true, false⟩ ∧
        fm.CRC = some (crc64 writes.flatten) ∧
        fm.meta.ID = name := by
  have hall1 : ∀ p ∈ d.entries, p.1 ≠ name ++ ".tmp" :=
    (lookupEntry_none_iff d _).mp hfresh1
  have hall2 : ∀ p ∈ d.entries, p.1 ≠ name :=
    (lookupEntry_none_iff d _).mp hfresh2
  have hwr : sinkWriteAll (createdSink name index term configuration configurationIndex peers)
      writes =
      ⟨name ++ ".tmp",
        ⟨⟨1, name, index, term, peers, configuration, configurationIndex, 0⟩, none⟩,
        writes.flatten, false⟩ := by
    rw [sinkWriteAll_written]
    simp [createdSink]
  have hclose : sinkClose f
      (sinkWriteAll (createdSink name index term configuration configurationIndex peers) writes)
      (createdDisk d name index term configuration configurationIndex peers) false =
      (Except.ok (),
        ⟨name ++ ".tmp",
          closedMeta name index term configuration configurationIndex peers writes.flatten,
          writes.flatten, true⟩,
        reapSnapshots f
          (installSnapshot
            ⟨name ++ ".tmp",
              closedMeta name index term configuration configurationIndex peers writes.flatten,
              writes.flatten, true⟩
            (createdDisk d name index term configuration configurationIndex peers))) := by
    rw [hwr]
    rfl
  have hinst : installSnapshot
      ⟨name ++ ".tmp",
        closedMeta name index term configuration configurationIndex peers writes.flatten,
        writes.flatten, true⟩
      (createdDisk d name index term configuration configurationIndex peers) =
      ⟨d.entries ++ [(name,
        FsEntry.dir
          (some (closedMeta name index term configuration configurationIndex peers writes.flatten))
          (some writes.flatten))]⟩ := by
    have h0 := installSnapshot_fresh (name ++ ".tmp")
      (closedMeta name index term configuration configurationIndex peers writes.flatten)
      writes.flatten true d
      (FsEntry.dir
        (some ⟨⟨1, name, index, term, peers, configuration, configurationIndex, 0⟩, none⟩)
        (some [])) hall1
    rw [trimTmpSuffix_append] at h0
    unfold createdDisk
    exact h0
  have helig3 : eligibleMetas
      ⟨d.entries ++ [(name,
        FsEntry.dir
          (some (closedMeta name index term configuration configurationIndex peers writes.flatten))
          (some writes.flatten))]⟩ =
      eligibleMetas d ++
        [closedMeta name index term configuration configurationIndex peers writes.flatten] :=
    eligibleMetas_append d _ _ (eligOf_final name _ writes.flatten htmp rfl)
  have hmax : ∀ m ∈ eligibleMetas d,
      metaKeyLT m.meta
        (closedMeta name index term configuration configurationIndex peers writes.flatten).meta :=
    fun m hm => (metaKeyLT_ext rfl rfl rfl).mp (hnewest m hm)
  obtain ⟨t, hsort, htperm⟩ := insertionSort_strict_max (eligibleMetas d)
    (closedMeta name index term configuration configurationIndex peers writes.flatten) hmax
  have hgs3 : getSnapshots
      ⟨d.entries ++ [(name,
        FsEntry.dir
          (some (closedMeta name index term configuration configurationIndex peers writes.flatten))
          (some writes.flatten))]⟩ =
      closedMeta name index term configuration configurationIndex peers writes.flatten :: t := by
    unfold getSnapshots
    rw [helig3]
    exact hsort
  have hkge : 1 ≤ f.retain.toNat := by omega
  have hvic : (reapVictims f
      ⟨d.entries ++ [(name,
        FsEntry.dir
          (some (closedMeta name index term configuration configurationIndex peers writes.flatten))
          (some writes.flatten))]⟩).contains name = false := by
    cases hcb : (reapVictims f
        ⟨d.entries ++ [(name,
          FsEntry.dir
            (some (closedMeta name index term configuration configurationIndex peers writes.flatten))
            (some writes.flatten))]⟩).contains name
    · rfl
    · exfalso
      have hmem : name ∈ reapVictims f
          ⟨d.entries ++ [(name,
            FsEntry.dir
              (some (closedMeta name index term configuration configurationIndex peers writes.flatten))
              (some writes.flatten))]⟩ := by
        simpa [List.contains, List.elem_eq_mem] using hcb
      unfold reapVictims at hmem
      rw [hgs3] at hmem
      rcases List.mem_map.mp hmem with ⟨m, hm, hid⟩
      have hmt : m ∈ t := by
        rcases Nat.exists_eq_add_of_le hkge with ⟨j, hj⟩
        rw [hj, Nat.add_comm 1 j, List.drop_succ_cons] at hm
        exact List.drop_subset j t hm
      have hmelig : m ∈ eligibleMetas d := htperm.mem_iff.mp hmt
      rcases List.mem_filterMap.mp hmelig with ⟨q, hq, hq2⟩
      have hqid : m.meta.ID = q.1 := eligOf_id (hwn q hq) hq2
      exact hall2 q hq (by rw [← hqid, hid])
  have hlook := lookup_reap_fresh f d name
    (FsEntry.dir
      (some (closedMeta name index term configuration configurationIndex peers writes.flatten))
      (some writes.flatten)) hall2 hvic
  refine ⟨createdSink name index term configuration configurationIndex peers,
    createdDisk d name index term configuration configurationIndex peers,
    storeCreate_eq d name index term configuration configurationIndex peers hfresh1, ?_, ?_⟩
  · rw [hclose]
  · refine ⟨closedMeta name index term configuration configurationIndex peers writes.flatten,
      ?_, rfl, rfl⟩
    rw [hclose]
    show storeOpen (reapSnapshots f _) name = _
    rw [hinst]
    exact storeOpen_ok (readMeta_of_lookup hlook) (stateBytes_of_lookup hlook) rfl

/-- C1 fixture: a store with retain 1 whose directory already holds a
newer (term 9) snapshot. -/
def c1Store : FileSnapshotStore := ⟨1⟩

/-- C1 fixture: the pre-existing newer snapshot. -/
def c1OldMeta : fileSnapshotMeta := ⟨⟨1, "9-9-900", 9, 9, [], 0, 0, 0⟩, some (crc64 [])⟩

/-- C1 fixture: the directory before Create. -/
def c1Disk : DiskState := ⟨[("9-9-900", FsEntry.dir (some c1OldMeta) (some []))]⟩

/-- C1 fixture: the sink Create returns for the older (term 1) snapshot. -/
def c1Sink : FileSnapshotSink := createdSink "1-1-100" 1 1 0 0 []

/-- C1 fixture: the directory right after Create. -/
def c1Disk1 : DiskState := createdDisk c1Disk "1-1-100" 1 1 0 0 []

/-- C1 counterexample: the claim as stated fails, because Close triggers
retention.  Writing a term-1 snapshot through a retain-1 store whose
directory already holds a term-9 snapshot succeeds (Create, Write, Close all
return nil), but the reap pass that Close runs deletes the just-written
snapshot, so Open on its ID fails instead of returning its bytes. -/
theorem c1_counterexample :
    storeCreate c1Disk 1 1 1 0 0 [] "1-1-100" = Except.ok (c1Sink, c1Disk1) ∧
    (sinkClose c1Store (sinkWriteAll c1Sink [[1]]) c1Disk1 false).1 = Except.ok () ∧
    (storeOpen (sinkClose c1Store (sinkWriteAll c1Sink [[1]]) c1Disk1 false).2.2
        "1-1-100").result = Except.error "failed to get meta data" := by
  refine ⟨by decide, by decide, by decide⟩

/-- C1 witness: in an empty store directory with retain 3, writing
[1, 2] then [3] and closing lets Open read back exactly [1, 2, 3] at offset
0, with the stored CRC matching. -/
theorem create_write_close_open_roundtrip_witness :
    ((1 : Int) ≤ (⟨3⟩ : FileSnapshotStore).retain ∧ wellNamed ⟨[]⟩ ∧
      hasTmpSuffix "1-1-100" = false ∧
      lookupEntry ⟨[]⟩ ("1-1-100" ++ ".tmp") = none ∧
      lookupEntry ⟨[]⟩ "1-1-100" = none) ∧
    ∃ s0 d1,
      storeCreate ⟨[]⟩ 1 1 1 0 0 [] "1-1-100" = Except.ok (s0, d1) ∧
      (sinkClose ⟨3⟩ (sinkWriteAll s0 [[1, 2], [3]]) d1 false).1 = Except.ok () ∧
      ∃ fm,
        storeOpen (sinkClose ⟨3⟩ (sinkWriteAll s0 [[1, 2], [3]]) d1 false).2.2 "1-1-100" =
          ⟨Except.ok (fm, [[1, 2], [3]].flatten, 0), true, false⟩ ∧
        fm.CRC = some (crc64 [[1, 2], [3]].flatten) ∧
        fm.meta.ID = "1-1-100" :=
  ⟨⟨by decide, by decide, by decide, by decide, by decide⟩,
    create_write_close_open_roundtrip ⟨3⟩ ⟨[]⟩ "1-1-100" 1 1 0 0 [] [[1, 2], [3]]
      (by decide) (by decide) (by decide) (by decide) (by decide)
      (fun m hm => absurd hm (List.not_mem_nil m))⟩
